import Mathlib

/-! # CSI-Extraction-Wireless: a shallow embedding of the access-point firmware

This file embeds the pieces of the `active_ap` firmware (`main/main.c`
together with the `_components` headers) that the verified properties are
about: the timestamp parser (`timestamp_manager.h`), the console command
processor (`command_processor.h`), the bounded CSI sample queue and the MAC
admission filter (`main.c`), mDNS peer discovery with its broadcast fallback
(`main.c`), and the transport-record formatter of the CSI processing task
(`main.c`).  C strings are `List Char`, raw console bytes are `Nat`, machine
integers are `Int`/`Nat` (every value in scope is far from any width bound,
so wrap-around is not modelled), and the two floating-point derivations
(amplitude and phase) are idealized over `ℝ`.
-/

namespace CsiAp

/-- C `isspace` in the default locale: space, `\t`, `\n`, `\v`, `\f`, `\r`. -/
def cIsSpace (c : Char) : Bool :=
  c == ' ' || c == '\t' || c == '\n' || c == '\x0B' || c == '\x0C' || c == '\r'

/-! ## Timestamp manager (`_components/timestamp_manager.h`) -/

/-- Decimal value of a digit run, as accumulated by `sscanf`. -/
def natOfDigits (ds : List Char) : Nat :=
  ds.foldl (fun a c => 10 * a + (c.toNat - '0'.toNat)) 0

/-- The leading-whitespace skip performed by every `sscanf` numeric
conversion and by a blank in the format string. -/
def dropSpaces (s : List Char) : List Char := s.dropWhile cIsSpace

/-- One `%lld`/`%ld` conversion of C `sscanf`: skip leading whitespace, read
an optional sign and then a nonempty digit run; on success return the value
and the unconsumed rest of the input.  (Overflow is irrelevant at the
magnitudes exercised here and is not modelled.) -/
def scanSignedInt (s : List Char) : Option (Int × List Char) :=
  let s1 := dropSpaces s
  let neg : Bool := s1.headD ' ' == '-'
  let s2 := if s1.headD ' ' == '-' || s1.headD ' ' == '+' then s1.tail else s1
  let ds := s2.takeWhile Char.isDigit
  if ds.isEmpty then none
  else
    some (if neg then -(natOfDigits ds : Int) else (natOfDigits ds : Int),
          s2.dropWhile Char.isDigit)

/-- Exact matching of the ordinary (non-conversion, non-blank) characters of
an `sscanf` format against the input. -/
def matchChars : List Char → List Char → Option (List Char)
  | [], s => some s
  | _ :: _, [] => none
  | l :: ls, c :: cs => if c = l then matchChars ls cs else none

/-- `sscanf(input, "%lld.%ld", &sec, &usec)` — `TIMESTAMP_FORMAT_SIMPLE`.
Returns (number of fields assigned, seconds, microseconds); a field that was
not assigned is reported as `0`, matching the zero-initialized C locals it
would leave untouched. -/
def sscanf_simple (s : List Char) : Nat × Int × Int :=
  match scanSignedInt s with
  | none => (0, 0, 0)
  | some (sec, r1) =>
    match r1 with
    | '.' :: r2 =>
      match scanSignedInt r2 with
      | none => (1, sec, 0)
      | some (us, _) => (2, sec, us)
    | _ => (1, sec, 0)

/-- `sscanf(input, "SYNC_TIME: %lld.%ld", ...)` — `TIMESTAMP_FORMAT_EXTENDED`.
The literal prefix must match exactly (no whitespace is skipped before it);
the blank after the colon skips whitespace, as does `%lld` itself, so the
remainder is scanned exactly like the simple format. -/
def sscanf_extended (s : List Char) : Nat × Int × Int :=
  match matchChars "SYNC_TIME:".toList s with
  | none => (0, 0, 0)
  | some r => sscanf_simple r

/-- `validate_timestamp_format` (timestamp_manager.h:23-38): accepted when
either format assigns at least one field. -/
def validate_timestamp_format (s : List Char) : Bool :=
  if (sscanf_extended s).1 > 0 then true else (sscanf_simple s).1 > 0

/-- `timestamp_parse_result_t` (timestamp_manager.h:16-20). -/
structure timestamp_parse_result_t where
  seconds : Int
  microseconds : Int
  parse_success : Bool
deriving DecidableEq

/-- `parse_timestamp_string` (timestamp_manager.h:40-63): try the extended
format, fall back to the simple one; on success clamp out-of-range
microseconds to `0`. -/
def parse_timestamp_string (s : List Char) : timestamp_parse_result_t :=
  let e := sscanf_extended s
  let r := if e.1 ≤ 0 then sscanf_simple s else e
  if r.1 > 0 then
    { seconds := r.2.1
      microseconds := if r.2.2 < 0 ∨ 1000000 ≤ r.2.2 then 0 else r.2.2
      parse_success := true }
  else { seconds := 0, microseconds := 0, parse_success := false }

/-- The clock plus the `time_sync_established` flag of the timestamp
manager. -/
structure TimeState where
  time_sync_established : Bool
  clock_sec : Int
  clock_usec : Int
deriving DecidableEq

/-- `synchronize_system_time` (timestamp_manager.h:66-87).  The
`settimeofday` system call is an external collaborator and is modelled as
succeeding. -/
def synchronize_system_time (st : TimeState) (s : List Char) : Bool × TimeState :=
  let parsed := parse_timestamp_string s
  if parsed.parse_success = false then (false, st)
  else
    (true,
     { time_sync_established := true
       clock_sec := parsed.seconds
       clock_usec := parsed.microseconds })

/-! ## Command processor (`_components/command_processor.h`) -/

/-- `command_type_t` (command_processor.h:27-34). -/
inductive command_type_t where
  | CMD_TYPE_UNKNOWN
  | CMD_TYPE_TIME_SYNC
  | CMD_TYPE_CSI_CONFIG
  | CMD_TYPE_SYSTEM_INFO
  | CMD_TYPE_HELP
deriving DecidableEq

/-- `trim_whitespace` (command_processor.h:37-58): drop leading whitespace,
then drop trailing whitespace (the trailing loop stops at the first
non-space character from the end, which exists whenever the
leading-trimmed string is nonempty). -/
def trim_whitespace (s : List Char) : List Char :=
  (((s.dropWhile cIsSpace).reverse).dropWhile cIsSpace).reverse

/-- C `tolower` on ASCII, as used by `strcasecmp`. -/
def cToLower (c : Char) : Char :=
  if 'A' ≤ c ∧ c ≤ 'Z' then Char.ofNat (c.toNat + 32) else c

/-- `strcasecmp(a, b) == 0`: equality after ASCII lowercasing. -/
def strcaseeq (a b : List Char) : Bool :=
  a.map cToLower == b.map cToLower

/-- `classify_command` (command_processor.h:61-98).  The command text is
copied into a 512-byte local with `strncpy` (so at most 511 characters
survive), trimmed, and then tested in order: timestamp pattern, `CSI_`
prefix, help aliases, status aliases. -/
def classify_command (s : List Char) : command_type_t :=
  let t := trim_whitespace (s.take 511)
  if validate_timestamp_format t then .CMD_TYPE_TIME_SYNC
  else if t.take 4 = "CSI_".toList then .CMD_TYPE_CSI_CONFIG
  else if strcaseeq t "help".toList || strcaseeq t "?".toList then .CMD_TYPE_HELP
  else if strcaseeq t "status".toList || strcaseeq t "info".toList then .CMD_TYPE_SYSTEM_INFO
  else .CMD_TYPE_UNKNOWN

/-- The mutable state touched by command dispatch: the timestamp manager's
state and the `commands_processed` counter of `g_cmd_processor`. -/
structure ProcState where
  time : TimeState
  commands_processed : Nat
deriving DecidableEq

/-- `execute_classified_command` (command_processor.h:133-172): time-sync
commands are handled iff `synchronize_system_time` succeeds; help, status
and `CSI_` commands are always handled; unknown commands are not.  The
counter increments exactly when the command was handled.  Returns the
`command_handled` flag and the updated state. -/
def execute_classified_command (st : ProcState) (s : List Char)
    (ty : command_type_t) : Bool × ProcState :=
  let step : Bool × TimeState :=
    match ty with
    | .CMD_TYPE_TIME_SYNC => synchronize_system_time st.time s
    | .CMD_TYPE_HELP => (true, st.time)
    | .CMD_TYPE_SYSTEM_INFO => (true, st.time)
    | .CMD_TYPE_CSI_CONFIG => (true, st.time)
    | .CMD_TYPE_UNKNOWN => (false, st.time)
  (step.1,
   { time := step.2
     commands_processed :=
       if step.1 then st.commands_processed + 1 else st.commands_processed })

/-- `process_received_command` (command_processor.h:175-185): an empty buffer
is ignored; otherwise the line is classified and dispatched. -/
def process_received_command (st : ProcState) (buffer : List Char) : ProcState :=
  if buffer.length = 0 then st
  else (execute_classified_command st buffer (classify_command buffer)).2

/-- Feeding a sequence of completed command lines to the dispatcher. -/
def process_command_lines (st : ProcState) (lines : List (List Char)) : ProcState :=
  lines.foldl process_received_command st

/-- Whether one line would be counted as handled by the dispatcher.  This is
a pure projection of `execute_classified_command`: its handled flag depends
only on the line (an empty line is classified `CMD_TYPE_UNKNOWN` and is
skipped by `process_received_command` anyway). -/
def command_handled (l : List Char) : Bool :=
  match classify_command l with
  | .CMD_TYPE_UNKNOWN => false
  | .CMD_TYPE_TIME_SYNC => (parse_timestamp_string l).parse_success
  | _ => true

/-- A line starts with an optionally-signed decimal integer: an optional
single `+`/`-` immediately followed by a digit (the shape whose trimmed
occurrence the claims characterize; compare the sign handling of
`scanSignedInt`). -/
def begins_with_int (s : List Char) : Bool :=
  if s.headD ' ' == '-' || s.headD ' ' == '+' then (s.tail.headD ' ').isDigit
  else (s.headD ' ').isDigit

/-- The console reader's state (`command_processor.h:15-24` and the
`scan_for_input_data` loop): the accumulating line buffer, the trace of
buffers handed to `process_received_command` (each of which is classified
and dispatched there), and the number of emitted overflow notices. -/
structure ScanState where
  command_buffer : List Nat
  dispatched : List (List Nat)
  overflow_notices : Nat
deriving DecidableEq

/-- One iteration of the `scan_for_input_data` loop body
(command_processor.h:188-221) on one input byte: a terminator freezes and
dispatches the buffer (an empty buffer is ignored by
`process_received_command`); otherwise the byte is appended while fewer than
`MAX_COMMAND_LENGTH - 1 = 511` bytes are buffered; a non-terminator byte
arriving with the buffer full discards the whole partial buffer (and that
byte) and emits the overflow notice. -/
def scan_step (st : ScanState) (c : Nat) : ScanState :=
  if c = 10 ∨ c = 13 then
    if st.command_buffer = [] then st
    else
      { command_buffer := []
        dispatched := st.dispatched ++ [st.command_buffer]
        overflow_notices := st.overflow_notices }
  else if st.command_buffer.length < 511 then
    { st with command_buffer := st.command_buffer ++ [c] }
  else
    { command_buffer := []
      dispatched := st.dispatched
      overflow_notices := st.overflow_notices + 1 }

/-- `scan_for_input_data` (command_processor.h:188-221): consume available
input bytes until `0xFF`/EOF (end of the list). -/
def scan_for_input_data (st : ScanState) (input : List Nat) : ScanState :=
  (input.takeWhile (fun c => ¬(c = 255))).foldl scan_step st

/-- The reader's initial state (`g_cmd_processor` is zero-initialized). -/
def initialScan : ScanState := ⟨[], [], 0⟩

/-! ## Bounded sample queue (`main.c`) -/

/-- The CSI data queue of `app_main` (created with
`xQueueCreate(CSI_DATA_QUEUE_SIZE = 64, sizeof(wifi_csi_info_t*))`, main.c
line 478) together with the producer-side observables of
`research_csi_data_callback`: the samples freed by the producer on
rejection, and the number of logged queue-overflow drops. -/
structure QueueState (α : Type) where
  items : List α
  producer_freed : List α
  drops_reported : Nat
deriving DecidableEq

/-- The enqueue step of `research_csi_data_callback` (main.c:123-130):
`xQueueSend(queue, &copy, 0)` is non-blocking; when the 64-slot queue is
full it fails, and the producer frees the freshly allocated copy (buffer
and record) and logs the drop. -/
def research_csi_enqueue {α : Type} (st : QueueState α) (sample : α) : QueueState α :=
  if st.items.length < 64 then { st with items := st.items ++ [sample] }
  else
    { st with
      producer_freed := st.producer_freed ++ [sample]
      drops_reported := st.drops_reported + 1 }

/-- A sequence of enqueue attempts with no consumer draining. -/
def inject_samples {α : Type} (st : QueueState α) (samples : List α) : QueueState α :=
  samples.foldl research_csi_enqueue st

/-- The freshly created, empty queue. -/
def emptyQueue {α : Type} : QueueState α := ⟨[], [], 0⟩

/-! ## Admission filter (`main.c`) -/

/-- One `%x` output digit of `snprintf` (lowercase). -/
def hexDigitChar (n : Nat) : Char :=
  match n with
  | 0 => '0' | 1 => '1' | 2 => '2' | 3 => '3' | 4 => '4'
  | 5 => '5' | 6 => '6' | 7 => '7' | 8 => '8' | 9 => '9'
  | 10 => 'a' | 11 => 'b' | 12 => 'c' | 13 => 'd' | 14 => 'e'
  | _ => 'f'

/-- The `"%02x:%02x:%02x:%02x:%02x:%02x"` rendering of a 6-byte MAC address
used by `is_authorized_research_device` (main.c:74-78); each byte is below
256, so `%02x` emits exactly two lowercase hex digits. -/
def mac_address_chars (b0 b1 b2 b3 b4 b5 : Nat) : List Char :=
  [hexDigitChar (b0 / 16), hexDigitChar (b0 % 16), ':',
   hexDigitChar (b1 / 16), hexDigitChar (b1 % 16), ':',
   hexDigitChar (b2 / 16), hexDigitChar (b2 % 16), ':',
   hexDigitChar (b3 / 16), hexDigitChar (b3 % 16), ':',
   hexDigitChar (b4 / 16), hexDigitChar (b4 % 16), ':',
   hexDigitChar (b5 / 16), hexDigitChar (b5 % 16)]

/-- The allow-list `authorized_devices` (main.c:58-61). -/
def authorized_devices : List (List Char) :=
  ["a0:b7:65:5a:08:a5".toList, "24:0a:c4:c9:25:d8".toList]

/-- `is_authorized_research_device` (main.c:73-90): format the MAC and
`strcmp` it against every allow-list entry. -/
def is_authorized_research_device (b0 b1 b2 b3 b4 b5 : Nat) : Bool :=
  authorized_devices.any (fun d => mac_address_chars b0 b1 b2 b3 b4 b5 == d)

/-! ## Peer discovery (`main.c`) -/

/-- The discovery-related fields of `application_state_t` (main.c:45-53). -/
structure DiscoveryState where
  discovered_host_ip : List Char
  host_discovered : Bool
deriving DecidableEq

/-- One `mdns_result_t` node: `addr` and `hostname` may be null. -/
structure MdnsResult where
  addr : Option (List Char)
  hostname : Option (List Char)
deriving DecidableEq

/-- The body of the result-walking loop of `discover_host_computer`
(main.c:284-298): a result with both an address and a hostname is stored as
the discovered host, but only while no host has been stored yet. -/
def mdns_store_first (st : DiscoveryState) (r : MdnsResult) : DiscoveryState :=
  match r.addr, r.hostname with
  | some ip, some _ => if st.host_discovered then st else ⟨ip, true⟩
  | _, _ => st

/-- `discover_host_computer` (main.c:271-312).  `query_ok` is the result of
`mdns_query_ptr` (which already bounds the wait with its 3000 ms timeout):
on failure the function returns `ESP_FAIL` and changes nothing; otherwise it
walks the result list and, if still undiscovered afterwards, falls back to
the fixed broadcast address.  Returns (`result == ESP_OK`, new state). -/
def discover_host_computer (query_ok : Bool) (results : List MdnsResult)
    (st : DiscoveryState) : Bool × DiscoveryState :=
  if query_ok = false then (false, st)
  else
    let st1 := results.foldl mdns_store_first st
    if st1.host_discovered = false then (true, ⟨"192.168.4.255".toList, true⟩)
    else (true, st1)

/-- `transmit_csi_data` (main.c:360-381): transmission is skipped when no
host is discovered or the socket is invalid; otherwise the datagram is sent
to `discovered_host_ip` (the send itself is an external collaborator; the
model returns the destination and payload of the emitted datagram). -/
def transmit_csi_data (st : DiscoveryState) (sock : Int) (payload : List Char) :
    Option (List Char × List Char) :=
  if st.host_discovered = false ∨ sock < 0 then none
  else some (st.discovered_host_ip, payload)

/-! ## Transport-record formatter (`csi_data_processing_task`, main.c:396-452)

The 4096-byte output buffer is written sequentially with `snprintf`, which
truncates to the remaining capacity but returns the untruncated length; the
running `offset` is the sum of returned lengths.  The buffer is `memset` to
zero beforehand. -/

/-- `(toString n)` matches C `%d`/`%lld` rendering of an integer. -/
def int_chars (n : Int) : List Char := (toString n).toList

/-- The header `snprintf` of the processing task (main.c:416-426):
`"CSI_Data,AP,%s,"`, nineteen `%d` metadata fields, the sync flag as `%d`,
the timestamp as `%s`, the reported length as `%d`, then `",["`. -/
def mkHeader (mac_string : List Char) (rx_fields : List Int) (sync : Bool)
    (timestamp : List Char) (len : Int) : List Char :=
  "CSI_Data,AP,".toList ++ mac_string ++ [','] ++
    List.intercalate [','] (rx_fields.map int_chars) ++ [','] ++
    int_chars (if sync then 1 else 0) ++ [','] ++ timestamp ++ [','] ++
    int_chars len ++ [',', '[']

/-- `snprintf(output_buffer + offset, 4096 - offset, ...)` writing the text
`s`: at most `4095 - offset` characters are stored (one byte is reserved
for the terminator) and the untruncated length is added to the offset.  The
model appends at position `offset`, which coincides with the stored content
whenever no earlier write was truncated — the situation established by the
theorems below. -/
def snprintf_at (buf : List Char) (offset : Nat) (s : List Char) : List Char × Nat :=
  (buf.take offset ++ s.take (4095 - offset), offset + s.length)

/-- The derived-value loop of the processing task (main.c:429-434):
`for (i = 0; i < 64 && (i*2+1) < len && offset < 4096 - 50; i++)` appends
the rendered amplitude of pair `i` (`value i` is the `"%.4f "` rendering).
`i < 64` is realized by starting the fuel at 64. -/
def amplitude_loop (value : Nat → List Char) (len : Nat) :
    Nat → Nat → List Char → Nat → List Char × Nat
  | 0, _, buf, offset => (buf, offset)
  | fuel + 1, i, buf, offset =>
    if 2 * i + 1 < len ∧ offset < 4046 then
      let w := snprintf_at buf offset (value i)
      amplitude_loop value len fuel (i + 1) w.1 w.2
    else (buf, offset)

/-- The complete record built by the processing task: the header write, the
value loop, then the closing `"]\n"` (main.c:416-437). -/
def csi_record (header : List Char) (value : Nat → List Char) (len : Nat) : List Char :=
  let r := amplitude_loop value len 64 0 (header.take 4095) header.length
  (snprintf_at r.1 r.2 "]\n".toList).1

/-! ## Derived measurement values (`csi_handler.h` and main.c)

The payload is a list of signed bytes; amplitude and phase are computed in
`double` and idealized here over `ℝ` (`sqrt` as `Real.sqrt`, `atan2(y, x)`
as `Complex.arg (x + y*I)`).  The decimal rendering is kept abstract; these
definitions capture which values are derived. -/

/-- `csi_processing_mode_t` (csi_handler.h:12-17). -/
inductive csi_processing_mode_t where
  | CSI_MODE_RAW_DATA
  | CSI_MODE_AMPLITUDE
  | CSI_MODE_PHASE_INFO
deriving DecidableEq

/-- Raw-mode byte walk of `enhanced_csi_callback` (csi_handler.h:75-79):
`for (idx = 0; idx < 128 && idx < len; idx++)` emits `buf[idx]`. -/
def enhanced_raw_loop (buf : List Int) (len : Nat) : Nat → Nat → List Int
  | 0, _ => []
  | fuel + 1, idx =>
    if idx < len then buf.getD idx 0 :: enhanced_raw_loop buf len fuel (idx + 1)
    else []

/-- Pair walk of `enhanced_csi_callback` (csi_handler.h:82-100):
`for (idx = 0; idx < 64 && (idx*2+1) < len; idx++)` consumes consecutive
(real, imaginary) byte pairs. -/
def enhanced_pair_loop (buf : List Int) (len : Nat) : Nat → Nat → List (Int × Int)
  | 0, _ => []
  | fuel + 1, idx =>
    if 2 * idx + 1 < len then
      (buf.getD (2 * idx) 0, buf.getD (2 * idx + 1) 0) ::
        enhanced_pair_loop buf len fuel (idx + 1)
    else []

/-- Pair walk of `csi_data_processing_task` (main.c:428-434): the same
pairing, written independently in main.c; the payload-ceiling guard
(`offset < 4046`) of that loop is modelled in `csi_record` and cannot
trigger for the 128-byte payloads and bounded headers of this device. -/
def task_pair_loop (buf : List Int) (len : Nat) : Nat → Nat → List (Int × Int)
  | 0, _ => []
  | fuel + 1, idx =>
    if 2 * idx + 1 < len then
      (buf.getD (2 * idx) 0, buf.getD (2 * idx + 1) 0) ::
        task_pair_loop buf len fuel (idx + 1)
    else []

/-- `sqrt(real*real + imag*imag)` (csi_handler.h:87, main.c:432). -/
noncomputable def amplitude_of (p : Int × Int) : ℝ :=
  Real.sqrt ((p.1 : ℝ) * (p.1 : ℝ) + (p.2 : ℝ) * (p.2 : ℝ))

/-- `atan2(imag, real)` (csi_handler.h:97). -/
noncomputable def phase_of (p : Int × Int) : ℝ :=
  Complex.arg ⟨(p.1 : ℝ), (p.2 : ℝ)⟩

/-- The value list printed by `enhanced_csi_callback`'s mode switch
(csi_handler.h:73-101). -/
noncomputable def enhanced_csi_values (mode : csi_processing_mode_t)
    (buf : List Int) (len : Nat) : List ℝ :=
  match mode with
  | .CSI_MODE_RAW_DATA => (enhanced_raw_loop buf len 128 0).map (fun v => (v : ℝ))
  | .CSI_MODE_AMPLITUDE => (enhanced_pair_loop buf len 64 0).map amplitude_of
  | .CSI_MODE_PHASE_INFO => (enhanced_pair_loop buf len 64 0).map phase_of

/-- The value list carried by the record that `csi_data_processing_task`
formats and forwards (main.c:428-434): amplitude of every pair,
unconditionally — the task never consults `g_csi_config.mode`. -/
noncomputable def processing_task_values (buf : List Int) (len : Nat) : List ℝ :=
  (task_pair_loop buf len 64 0).map amplitude_of

/-- A concrete header (MAC, 19 metadata fields, sync flag, timestamp,
reported length 128) used to instantiate the formatter theorems. -/
def demoHeader : List Char :=
  mkHeader "A0:B7:65:5A:08:A5".toList
    [(-30), 11, 0, 7, 1, 0, 1, 0, 0, 0, 1, (-92), 0, 6, 2, 12345, 0, 57, 0]
    true "123.000456".toList 128

/-- A concrete `"%.4f "` value rendering used to instantiate the formatter
theorems. -/
def demoValue : Nat → List Char := fun _ => "5.0000 ".toList

/-! ## Helper lemmas -/

/-- Folding enqueue attempts over a queue that is not over capacity fills the
remaining free slots with the leading samples and rejects the rest. -/
theorem inject_samples_spec {α : Type} (samples : List α) (st : QueueState α)
    (h : st.items.length ≤ 64) :
    inject_samples st samples =
      ⟨st.items ++ samples.take (64 - st.items.length),
       st.producer_freed ++ samples.drop (64 - st.items.length),
       st.drops_reported + (samples.length - (64 - st.items.length))⟩ := by
  induction samples generalizing st with
  | nil => simp [inject_samples]
  | cons s ss ih =>
    rw [inject_samples, List.foldl_cons, ← inject_samples]
    by_cases hlt : st.items.length < 64
    · have hstep : research_csi_enqueue st s = { st with items := st.items ++ [s] } := by
        simp [research_csi_enqueue, hlt]
      rw [hstep, ih _ (by simp; omega)]
      have h64 : 64 - st.items.length = (64 - (st.items.length + 1)) + 1 := by omega
      simp [h64, List.take_succ_cons, List.drop_succ_cons]
    · have h64 : st.items.length = 64 := by omega
      have hstep : research_csi_enqueue st s =
          { st with producer_freed := st.producer_freed ++ [s],
                    drops_reported := st.drops_reported + 1 } := by
        simp [research_csi_enqueue, hlt]
      rw [hstep, ih _ (by simpa using h)]
      simp [h64]
      omega

/-- A result walk that starts with a discovered host changes nothing. -/
theorem fold_store_discovered (results : List MdnsResult) (st : DiscoveryState)
    (h : st.host_discovered = true) : results.foldl mdns_store_first st = st := by
  induction results generalizing st with
  | nil => rfl
  | cons r rs ih =>
    have hr : mdns_store_first st r = st := by
      cases ha : r.addr <;> cases hh : r.hostname <;> simp [mdns_store_first, ha, hh, h]
    rw [List.foldl_cons, hr, ih st h]

/-! ## Claim theorems -/

/-- **C1**: the 64-capacity sample queue never exceeds its capacity under any
sequence of non-blocking enqueue attempts; a full queue rejects the incoming
(newest) sample, which the producer frees while reporting the drop, so that
injecting 65 samples into the empty queue with no consumer draining leaves
exactly the first 64 samples enqueued, exactly 1 reported drop, and exactly
the newest sample freed by the producer. -/
theorem queue_drop_newest_spec :
    (∀ samples : List Nat,
        inject_samples emptyQueue samples =
          ⟨samples.take 64, samples.drop 64, samples.length - 64⟩) ∧
    (∀ (samples : List Nat) (st : QueueState Nat), st.items.length ≤ 64 →
        (inject_samples st samples).items.length ≤ 64) ∧
    (∀ samples : List Nat, samples.length = 65 →
        (inject_samples emptyQueue samples).items.length = 64 ∧
        (inject_samples emptyQueue samples).drops_reported = 1 ∧
        (inject_samples emptyQueue samples).items = samples.take 64 ∧
        (inject_samples emptyQueue samples).producer_freed = samples.drop 64) := by
  have base : ∀ samples : List Nat,
      inject_samples emptyQueue samples =
        ⟨samples.take 64, samples.drop 64, samples.length - 64⟩ := by
    intro samples
    simpa [emptyQueue] using inject_samples_spec samples emptyQueue (by simp [emptyQueue])
  refine ⟨base, ?_, ?_⟩
  · intro samples st h
    rw [inject_samples_spec samples st h]
    simp
    omega
  · intro samples h65
    rw [base samples]
    refine ⟨by simp [h65], by simp [h65], rfl, rfl⟩

/-- Witness for C1: the concrete 65-sample injection. -/
theorem queue_drop_newest_spec_witness :
    (inject_samples emptyQueue (List.range 65)).items.length = 64 ∧
    (inject_samples emptyQueue (List.range 65)).drops_reported = 1 ∧
    (inject_samples emptyQueue (List.range 65)).items = (List.range 65).take 64 ∧
    (inject_samples emptyQueue (List.range 65)).producer_freed = (List.range 65).drop 64 :=
  queue_drop_newest_spec.2.2 (List.range 65) (by simp)

/-- **C6**: a discovery cycle that completes with no query result resolves the
peer to the fixed broadcast address `192.168.4.255`, marks it resolved, and
the forwarder then transmits to that address instead of skipping. -/
theorem discovery_fallback_spec (st : DiscoveryState) (h : st.host_discovered = false)
    (sock : Int) (hs : 0 ≤ sock) (payload : List Char) :
    (discover_host_computer true [] st).2 = ⟨"192.168.4.255".toList, true⟩ ∧
    transmit_csi_data (discover_host_computer true [] st).2 sock payload =
      some ("192.168.4.255".toList, payload) := by
  have hd : (discover_host_computer true [] st).2 = ⟨"192.168.4.255".toList, true⟩ := by
    simp [discover_host_computer, h]
  refine ⟨hd, ?_⟩
  rw [hd]
  unfold transmit_csi_data
  rw [if_neg]
  simp
  omega

/-- Witness for C6: concrete unresolved state, socket 0. -/
theorem discovery_fallback_spec_witness :
    (discover_host_computer true [] ⟨[], false⟩).2 = ⟨"192.168.4.255".toList, true⟩ ∧
    transmit_csi_data (discover_host_computer true [] ⟨[], false⟩).2 0 "x".toList =
      some ("192.168.4.255".toList, "x".toList) :=
  discovery_fallback_spec ⟨[], false⟩ rfl 0 (by decide) "x".toList

/-- **C9**: once the peer is resolved, every further discovery cycle — with
any query outcome and any result list — leaves the whole discovery state
unchanged; in particular a peer resolved from a query result is never
overwritten with the fallback broadcast address. -/
theorem discovery_idempotent_spec (ok : Bool) (results : List MdnsResult)
    (st : DiscoveryState) (h : st.host_discovered = true) :
    (discover_host_computer ok results st).2 = st := by
  unfold discover_host_computer
  cases ok with
  | false => simp
  | true => simp [fold_store_discovered results st h, h]

/-- Witness for C9: a host resolved from a query keeps its address even when
a later cycle returns a different valid result. -/
theorem discovery_idempotent_spec_witness :
    (discover_host_computer true [⟨some "10.9.9.9".toList, some "other".toList⟩]
        ⟨"10.0.0.5".toList, true⟩).2 = ⟨"10.0.0.5".toList, true⟩ :=
  discovery_idempotent_spec true _ _ rfl

/-- A digit character is not whitespace. -/
theorem cIsSpace_eq_false_of_digit (c : Char) (h : c.isDigit = true) :
    cIsSpace c = false := by
  cases hcs : cIsSpace c with
  | false => rfl
  | true =>
    simp only [cIsSpace, Bool.or_eq_true, beq_iff_eq] at hcs
    rcases hcs with ((((rfl | rfl) | rfl) | rfl) | rfl) | rfl <;> exact absurd h (by decide)

/-- An `sscanf` integer conversion fails on input containing no digit. -/
theorem scanSignedInt_eq_none (s : List Char) (h : ∀ c ∈ s, c.isDigit = false) :
    scanSignedInt s = none := by
  have hsubset : s.dropWhile cIsSpace ⊆ s := (List.dropWhile_sublist _).subset
  have htail : (s.dropWhile cIsSpace).tail ⊆ s :=
    fun x hx => hsubset (List.tail_subset _ hx)
  have key : ∀ t : List Char, t ⊆ s → (t.takeWhile Char.isDigit).isEmpty = true := by
    intro t ht
    cases hta : t.takeWhile Char.isDigit with
    | nil => rfl
    | cons d ds =>
      have hd : d ∈ t.takeWhile Char.isDigit := by rw [hta]; exact List.mem_cons_self d ds
      have hdig : d.isDigit = true := List.mem_takeWhile_imp hd
      have hmem : d ∈ t := (List.takeWhile_sublist _).subset hd
      have := h d (ht hmem)
      rw [hdig] at this
      cases this
  have hds : ((if (s.dropWhile cIsSpace).headD ' ' == '-' ||
                  (s.dropWhile cIsSpace).headD ' ' == '+'
               then (s.dropWhile cIsSpace).tail
               else s.dropWhile cIsSpace).takeWhile Char.isDigit).isEmpty = true := by
    split
    · exact key _ htail
    · exact key _ hsubset
  simp only [scanSignedInt, dropSpaces]
  rw [if_pos hds]

/-- A successful literal match of an `sscanf` format leaves a sublist of the
input unconsumed. -/
theorem matchChars_sublist :
    ∀ (lit s r : List Char), matchChars lit s = some r → List.Sublist r s := by
  intro lit
  induction lit with
  | nil =>
    intro s r h
    simp only [matchChars, Option.some.injEq] at h
    exact h ▸ List.Sublist.refl s
  | cons l ls ih =>
    intro s r h
    cases s with
    | nil => exact absurd h (by simp [matchChars])
    | cons c cs =>
      rw [matchChars] at h
      by_cases hc : c = l
      · rw [if_pos hc] at h
        exact (ih cs r h).trans (List.sublist_cons_self c cs)
      · rw [if_neg hc] at h
        exact absurd h (by simp)

/-- Neither `sscanf` format assigns a field when the input has no digit. -/
theorem sscanf_no_digit (s : List Char) (h : ∀ c ∈ s, c.isDigit = false) :
    sscanf_simple s = (0, 0, 0) ∧ sscanf_extended s = (0, 0, 0) := by
  refine ⟨by simp [sscanf_simple, scanSignedInt_eq_none s h], ?_⟩
  unfold sscanf_extended
  cases hm : matchChars "SYNC_TIME:".toList s with
  | none => rfl
  | some r =>
    have hrsub : r ⊆ s := (matchChars_sublist _ s r hm).subset
    simp [sscanf_simple, scanSignedInt_eq_none r (fun c hc => h c (hrsub hc))]

/-- **C2 counterexample**: on the input `"100.-5"` the parser reports
success (with the negative microsecond field clamped to 0) — not the failure
the claim asserts.  (`%ld` accepts the signed field `-5`, so `sscanf`
assigns 2 fields; the code then clamps and succeeds.) -/
theorem timestamp_parse_cex :
    parse_timestamp_string "100.-5".toList =
      { seconds := 100, microseconds := 0, parse_success := true } := by decide

/-- **C2 amended**: `"SYNC_TIME: 100.500000"` parses to seconds 100,
microseconds 500000, success; `"100.-5"` parses *successfully* with the
out-of-range microsecond field clamped to 0; input containing no digit
fails to parse, and whenever parsing fails `synchronize_system_time`
returns false and leaves the clock and the synchronized flag unmodified. -/
theorem timestamp_parse_amended :
    parse_timestamp_string "SYNC_TIME: 100.500000".toList =
      { seconds := 100, microseconds := 500000, parse_success := true } ∧
    parse_timestamp_string "100.-5".toList =
      { seconds := 100, microseconds := 0, parse_success := true } ∧
    ∀ (s : List Char) (st : TimeState),
      ((∀ c ∈ s, c.isDigit = false) → (parse_timestamp_string s).parse_success = false) ∧
      ((parse_timestamp_string s).parse_success = false →
        synchronize_system_time st s = (false, st)) := by
  refine ⟨by decide, by decide, fun s st => ⟨?_, ?_⟩⟩
  · intro h
    obtain ⟨h1, h2⟩ := sscanf_no_digit s h
    simp [parse_timestamp_string, h1, h2]
  · intro h
    simp [synchronize_system_time, h]

/-- Witness for C2 (amended): the non-numeric input `"hello"` fails to parse
and synchronization leaves the state untouched. -/
theorem timestamp_parse_amended_witness :
    (parse_timestamp_string "hello".toList).parse_success = false ∧
    synchronize_system_time ⟨false, 0, 0⟩ "hello".toList = (false, ⟨false, 0, 0⟩) := by
  have h := timestamp_parse_amended.2.2 "hello".toList ⟨false, 0, 0⟩
  exact ⟨h.1 (by decide), h.2 (h.1 (by decide))⟩

/-- The counter change of dispatching one line is decided by
`command_handled` alone. -/
theorem process_received_counter (st : ProcState) (l : List Char) :
    (process_received_command st l).commands_processed =
      if command_handled l then st.commands_processed + 1
      else st.commands_processed := by
  by_cases he : l.length = 0
  · have hl : l = [] := List.length_eq_zero.mp he
    subst hl
    simp [process_received_command, show command_handled [] = false from by decide]
  · cases hcl : classify_command l with
    | CMD_TYPE_UNKNOWN =>
      simp [process_received_command, he, execute_classified_command, hcl, command_handled]
    | CMD_TYPE_TIME_SYNC =>
      cases hp : (parse_timestamp_string l).parse_success with
      | true =>
        simp [process_received_command, he, execute_classified_command, hcl,
              command_handled, synchronize_system_time, hp]
      | false =>
        simp [process_received_command, he, execute_classified_command, hcl,
              command_handled, synchronize_system_time, hp]
    | CMD_TYPE_HELP =>
      simp [process_received_command, he, execute_classified_command, hcl, command_handled]
    | CMD_TYPE_SYSTEM_INFO =>
      simp [process_received_command, he, execute_classified_command, hcl, command_handled]
    | CMD_TYPE_CSI_CONFIG =>
      simp [process_received_command, he, execute_classified_command, hcl, command_handled]

/-- **C3 counterexample**: the line `" SYNC_TIME: 100.500000"` (one leading
blank) is a well-formed time-sync command — its trimmed text is exactly
`"SYNC_TIME: 100.500000"` and the classifier reports `CMD_TYPE_TIME_SYNC` —
yet dispatching it leaves the processed-command counter at 0: the
dispatcher re-parses the *untrimmed* line, whose leading blank makes the
literal `SYNC_TIME:` prefix fail, so N = 1, M = 0 increments the counter by
0, not N. -/
theorem command_counter_cex :
    classify_command " SYNC_TIME: 100.500000".toList = .CMD_TYPE_TIME_SYNC ∧
    trim_whitespace (" SYNC_TIME: 100.500000".toList.take 511) =
      "SYNC_TIME: 100.500000".toList ∧
    (process_command_lines ⟨⟨false, 0, 0⟩, 0⟩
        [" SYNC_TIME: 100.500000".toList]).commands_processed = 0 := by decide

/-- **C3 amended**: over any interleaving of command lines, the
processed-command counter increases by exactly the number of *handled*
lines: help/status/info/`?`/`CSI_` lines and time-sync lines whose raw
(untrimmed) text parses; unknown lines — and time-sync-classified lines
whose raw text fails to parse, such as lines with whitespace before
`SYNC_TIME:` — contribute nothing. -/
theorem command_counter_amended (lines : List (List Char)) (st : ProcState) :
    (process_command_lines st lines).commands_processed =
      st.commands_processed + lines.countP command_handled := by
  induction lines generalizing st with
  | nil => simp [process_command_lines]
  | cons l ls ih =>
    rw [process_command_lines, List.foldl_cons, ← process_command_lines, ih,
        process_received_counter, List.countP_cons]
    cases hcmd : command_handled l with
    | true => simp [hcmd]; omega
    | false => simp [hcmd]

/-- `%x` digits are distinct for distinct values below 16. -/
theorem hexDigitChar_inj : ∀ m < 16, ∀ n < 16,
    hexDigitChar m = hexDigitChar n → m = n := by decide

/-- Two bytes with equal `%02x` renderings are equal. -/
theorem byte_of_hex_eq {b t : Nat} (hb : b < 256) (ht : t < 256)
    (h1 : hexDigitChar (b / 16) = hexDigitChar (t / 16))
    (h2 : hexDigitChar (b % 16) = hexDigitChar (t % 16)) : b = t := by
  have d1 : b / 16 = t / 16 := hexDigitChar_inj _ (by omega) _ (by omega) h1
  have d2 : b % 16 = t % 16 := hexDigitChar_inj _ (by omega) _ (by omega) h2
  omega

/-- **C5**: the admission filter is a pure predicate over the 6-byte
identity: `is_authorized_research_device` accepts exactly the two allow-list
identities `a0:b7:65:5a:08:a5` and `24:0a:c4:c9:25:d8`, byte for byte, and
rejects every other identity. -/
theorem admission_filter_spec (b0 b1 b2 b3 b4 b5 : Nat)
    (h0 : b0 < 256) (h1 : b1 < 256) (h2 : b2 < 256)
    (h3 : b3 < 256) (h4 : b4 < 256) (h5 : b5 < 256) :
    is_authorized_research_device b0 b1 b2 b3 b4 b5 = true ↔
      ((b0 = 0xa0 ∧ b1 = 0xb7 ∧ b2 = 0x65 ∧ b3 = 0x5a ∧ b4 = 0x08 ∧ b5 = 0xa5) ∨
       (b0 = 0x24 ∧ b1 = 0x0a ∧ b2 = 0xc4 ∧ b3 = 0xc9 ∧ b4 = 0x25 ∧ b5 = 0xd8)) := by
  constructor
  · intro h
    have hor : mac_address_chars b0 b1 b2 b3 b4 b5 = "a0:b7:65:5a:08:a5".toList ∨
        mac_address_chars b0 b1 b2 b3 b4 b5 = "24:0a:c4:c9:25:d8".toList := by
      simpa [is_authorized_research_device, authorized_devices] using h
    rcases hor with hx | hx
    · left
      have hx' : mac_address_chars b0 b1 b2 b3 b4 b5 =
          ['a', '0', ':', 'b', '7', ':', '6', '5', ':', '5', 'a', ':',
           '0', '8', ':', 'a', '5'] := hx
      rw [mac_address_chars] at hx'
      simp only [List.cons.injEq, and_true] at hx'
      obtain ⟨e1, e2, -, e3, e4, -, e5, e6, -, e7, e8, -, e9, e10, -, e11, e12⟩ := hx'
      exact ⟨byte_of_hex_eq h0 (by norm_num) e1 e2,
             byte_of_hex_eq h1 (by norm_num) e3 e4,
             byte_of_hex_eq h2 (by norm_num) e5 e6,
             byte_of_hex_eq h3 (by norm_num) e7 e8,
             byte_of_hex_eq h4 (by norm_num) e9 e10,
             byte_of_hex_eq h5 (by norm_num) e11 e12⟩
    · right
      have hx' : mac_address_chars b0 b1 b2 b3 b4 b5 =
          ['2', '4', ':', '0', 'a', ':', 'c', '4', ':', 'c', '9', ':',
           '2', '5', ':', 'd', '8'] := hx
      rw [mac_address_chars] at hx'
      simp only [List.cons.injEq, and_true] at hx'
      obtain ⟨e1, e2, -, e3, e4, -, e5, e6, -, e7, e8, -, e9, e10, -, e11, e12⟩ := hx'
      exact ⟨byte_of_hex_eq h0 (by norm_num) e1 e2,
             byte_of_hex_eq h1 (by norm_num) e3 e4,
             byte_of_hex_eq h2 (by norm_num) e5 e6,
             byte_of_hex_eq h3 (by norm_num) e7 e8,
             byte_of_hex_eq h4 (by norm_num) e9 e10,
             byte_of_hex_eq h5 (by norm_num) e11 e12⟩
  · rintro (⟨rfl, rfl, rfl, rfl, rfl, rfl⟩ | ⟨rfl, rfl, rfl, rfl, rfl, rfl⟩) <;> decide

/-- Witness for C5: the first allow-list identity is admitted. -/
theorem admission_filter_spec_witness :
    is_authorized_research_device 0xa0 0xb7 0x65 0x5a 0x08 0xa5 = true :=
  (admission_filter_spec 0xa0 0xb7 0x65 0x5a 0x08 0xa5 (by decide) (by decide)
      (by decide) (by decide) (by decide) (by decide)).mpr
    (Or.inl ⟨rfl, rfl, rfl, rfl, rfl, rfl⟩)

/-- Feeding non-terminator bytes that fit in the remaining buffer space only
appends them. -/
theorem scan_fill (cs : List Nat) : ∀ (st : ScanState),
    (∀ c ∈ cs, ¬(c = 10 ∨ c = 13)) →
    st.command_buffer.length + cs.length ≤ 511 →
    cs.foldl scan_step st = { st with command_buffer := st.command_buffer ++ cs } := by
  induction cs with
  | nil => intro st _ _; simp
  | cons c cs ih =>
    intro st hns hlen
    have hc := hns c (List.mem_cons_self c cs)
    have hlt : st.command_buffer.length < 511 := by
      simp only [List.length_cons] at hlen; omega
    have hstep : scan_step st c = { st with command_buffer := st.command_buffer ++ [c] } := by
      simp [scan_step, hc, hlt]
    rw [List.foldl_cons, hstep,
        ih _ (fun x hx => hns x (List.mem_cons_of_mem c hx))
          (by simp at hlen ⊢; omega)]
    simp

/-- **C7 amended**: when the console line buffer fills (511 bytes) and a
further non-terminator byte arrives, the whole partial buffer (and that
byte) is discarded with one overflow notice and nothing is handed to
classification or dispatch; bytes arriving *after* the reset, however,
accumulate as a fresh line, so a later part of the same overlong line can
still be dispatched (see the counterexample). -/
theorem console_overflow_amended (cs : List Nat)
    (hlen : cs.length = 512)
    (hns : ∀ c ∈ cs, ¬(c = 10 ∨ c = 13) ∧ ¬(c = 255)) :
    scan_for_input_data initialScan cs = ⟨[], [], 1⟩ := by
  have htake : cs.takeWhile (fun c => ¬(c = 255)) = cs := by
    rw [List.takeWhile_eq_self_iff]
    intro x hx
    simpa using (hns x hx).2
  obtain ⟨c, hc⟩ : ∃ c, cs.drop 511 = [c] := by
    rw [← List.length_eq_one]
    simp [hlen]
  have hsplit : cs = cs.take 511 ++ [c] := by
    rw [← hc]; exact (List.take_append_drop 511 cs).symm
  rw [scan_for_input_data, htake]
  conv_lhs => rw [hsplit]
  rw [List.foldl_append]
  have h1 : (cs.take 511).foldl scan_step initialScan = ⟨cs.take 511, [], 0⟩ := by
    have := scan_fill (cs.take 511) initialScan
      (fun x hx => (hns x (List.take_subset 511 cs hx)).1)
      (by simp [initialScan, hlen])
    simpa [initialScan] using this
  rw [h1]
  have hcns : ¬(c = 10 ∨ c = 13) := (hns c (by rw [hsplit]; simp)).1
  have hfull : (cs.take 511).length = 511 := by simp [hlen]
  simp [scan_step, hcns, hfull]

/-- Witness for C7 (amended): 512 letters with no terminator are discarded
whole, with one overflow notice and nothing dispatched. -/
theorem console_overflow_amended_witness :
    scan_for_input_data initialScan (List.replicate 512 97) = ⟨[], [], 1⟩ :=
  console_overflow_amended (List.replicate 512 97) (by simp only [List.length_replicate])
    (fun c hc => by
      have h := List.eq_of_mem_replicate hc
      subst h
      decide)

/-- **C7 counterexample**: for the input stream of 513 letters `a` followed
by a newline, the buffer fills (511 bytes) before any terminator, the
overflow notice fires once — but the 513th byte of the very same line
survives the reset, accumulates as a fresh buffer, and at the terminator it
*is* handed to classification and dispatch (`dispatched = [[97]]`), contrary
to the claim that no part of such a line is ever classified or dispatched. -/
theorem console_overflow_cex :
    scan_for_input_data initialScan (List.replicate 513 97 ++ [10]) =
      ⟨[], [[97]], 1⟩ := by
  have hsplit : List.replicate 513 (97 : Nat) ++ [10] =
      List.replicate 511 (97 : Nat) ++ (97 :: 97 :: [10]) := by
    rw [show (513 : Nat) = 511 + 2 from rfl, List.replicate_add,
        show List.replicate 2 (97 : Nat) = [97, 97] from rfl, List.append_assoc]
    rfl
  have htake : (List.replicate 513 (97 : Nat) ++ [10]).takeWhile (fun c => ¬(c = 255)) =
      List.replicate 513 (97 : Nat) ++ [10] := by
    rw [List.takeWhile_eq_self_iff]
    intro x hx
    rcases List.mem_append.mp hx with h | h
    · have h97 := List.eq_of_mem_replicate h; subst h97; decide
    · simp only [List.mem_singleton] at h; subst h; decide
  rw [scan_for_input_data, htake, hsplit, List.foldl_append]
  rw [scan_fill (List.replicate 511 97) initialScan
    (fun x hx => by have h97 := List.eq_of_mem_replicate hx; subst h97; decide)
    (by simp only [initialScan, List.length_nil, List.length_replicate]; omega)]
  rw [List.foldl_cons]
  have hov : scan_step
      { initialScan with
        command_buffer := initialScan.command_buffer ++ List.replicate 511 97 } 97 =
      ⟨[], [], 1⟩ := by
    have hb : ({ initialScan with
        command_buffer := initialScan.command_buffer ++ List.replicate 511 97} :
          ScanState).command_buffer.length = 511 := by
      simp only [initialScan, List.nil_append, List.length_replicate]
    unfold scan_step
    rw [if_neg (by decide), if_neg (by rw [hb]; omega)]
    rfl
  rw [hov, List.foldl_cons]
  have hap : scan_step (⟨[], [], 1⟩ : ScanState) 97 = ⟨[97], [], 1⟩ := by decide
  rw [hap, List.foldl_cons]
  have hnl : scan_step (⟨[97], [], 1⟩ : ScanState) 10 = ⟨[], [[97]], 1⟩ := by decide
  rw [hnl]
  rfl

/-- The pair walk duplicated in main.c computes exactly the pair walk of
`enhanced_csi_callback`. -/
theorem pair_loops_eq (buf : List Int) (len : Nat) :
    ∀ fuel idx, task_pair_loop buf len fuel idx = enhanced_pair_loop buf len fuel idx := by
  intro fuel
  induction fuel with
  | zero => intro idx; rfl
  | succ fuel ih => intro idx; simp only [task_pair_loop, enhanced_pair_loop, ih]

/-- **C8 counterexample**: in raw mode the claim demands that the record
emitted by the forwarding pipeline carry the payload bytes verbatim, but for
the two-byte payload `[3, 4]` the pipeline's record carries the amplitude
list (one value per pair), not the raw bytes: the forwarding task computes
amplitudes unconditionally and never consults the configured mode. -/
theorem pipeline_mode_cex :
    processing_task_values [3, 4] 2 ≠
      enhanced_csi_values .CSI_MODE_RAW_DATA [3, 4] 2 := by
  intro h
  have e1 : task_pair_loop [3, 4] 2 64 0 = [(3, 4)] := by decide
  have e2 : enhanced_raw_loop [3, 4] 2 128 0 = [3, 4] := by decide
  simp only [processing_task_values, enhanced_csi_values] at h
  rw [e1, e2] at h
  simp at h

/-- **C8 amended**: the value list of the record formatted and forwarded by
`csi_data_processing_task` is always the amplitude derivation — identical to
`enhanced_csi_callback`'s amplitude-mode output — for every payload and
reported length, regardless of the configured processing mode (the
mode-dependent raw/amplitude/phase dispatch exists only in
`enhanced_csi_callback`, which `app_main` does not register). -/
theorem pipeline_amplitude_amended (buf : List Int) (len : Nat) :
    processing_task_values buf len = enhanced_csi_values .CSI_MODE_AMPLITUDE buf len := by
  unfold processing_task_values enhanced_csi_values
  rw [pair_loops_eq]

/-- A successful sign/digit head makes the `sscanf` integer conversion
succeed. -/
theorem scanSignedInt_isSome_of_begins (t : List Char) (h : begins_with_int t = true) :
    (scanSignedInt t).isSome = true := by
  cases t with
  | nil => exact absurd h (by decide)
  | cons c r =>
    by_cases hsign : (c == '-' || c == '+') = true
    · have hd : (r.headD ' ').isDigit = true := by
        simpa [begins_with_int, hsign] using h
      cases r with
      | nil => exact absurd hd (by decide)
      | cons d r2 =>
        have hd2 : d.isDigit = true := by simpa using hd
        have hnsp : cIsSpace c = false := by
          have hor := hsign
          simp only [Bool.or_eq_true, beq_iff_eq] at hor
          rcases hor with rfl | rfl <;> decide
        simp [scanSignedInt, dropSpaces, List.dropWhile_cons, hnsp, hsign,
              List.takeWhile_cons, hd2]
    · have hc : c.isDigit = true := by
        simpa [begins_with_int, hsign] using h
      have hnsp : cIsSpace c = false := cIsSpace_eq_false_of_digit c hc
      simp [scanSignedInt, dropSpaces, List.dropWhile_cons, hnsp, hsign,
            List.takeWhile_cons, hc]

/-- When the integer conversion succeeds, the simple format assigns at least
one field. -/
theorem sscanf_simple_pos (t : List Char) (hsome : (scanSignedInt t).isSome = true) :
    0 < (sscanf_simple t).1 := by
  cases hsc : scanSignedInt t with
  | none => rw [hsc] at hsome; cases hsome
  | some p =>
    obtain ⟨sec, r1⟩ := p
    simp only [sscanf_simple, hsc]
    split
    · split
      · exact Nat.succ_pos _
      · exact Nat.succ_pos _
    · exact Nat.succ_pos _

/-- A trimmed line starting with an optionally-signed integer validates as a
timestamp. -/
theorem validate_of_begins (t : List Char) (h : begins_with_int t = true) :
    validate_timestamp_format t = true := by
  have hpos := sscanf_simple_pos t (scanSignedInt_isSome_of_begins t h)
  unfold validate_timestamp_format
  split
  · rfl
  · simpa using hpos

/-- Trimming a line whose head is not whitespace keeps that head. -/
theorem trim_cons_head (c : Char) (l : List Char) (hns : cIsSpace c = false) :
    ∃ l2, trim_whitespace (c :: l) = c :: l2 := by
  unfold trim_whitespace
  rw [List.dropWhile_cons, if_neg (by simp [hns])]
  rw [List.reverse_cons, List.dropWhile_append]
  split
  · refine ⟨[], ?_⟩
    rw [List.dropWhile_cons, if_neg (by simp [hns])]
    rfl
  · exact ⟨(l.reverse.dropWhile cIsSpace).reverse, by simp⟩

/-- A line whose trimmed text starts with a sign or digit cannot match the
literal `SYNC_TIME:` prefix of the extended format. -/
theorem matchChars_SYNC_none (line : List Char)
    (h : begins_with_int (trim_whitespace (line.take 511)) = true) :
    matchChars "SYNC_TIME:".toList line = none := by
  cases line with
  | nil => exact absurd h (by decide)
  | cons c rest =>
    by_cases hc : c = 'S'
    · exfalso
      subst hc
      have htk : ('S' :: rest).take 511 = 'S' :: rest.take 510 := rfl
      rw [htk] at h
      obtain ⟨l2, hl2⟩ := trim_cons_head 'S' (rest.take 510) (by decide)
      rw [hl2] at h
      have hfalse : begins_with_int ('S' :: l2) = false := rfl
      rw [hfalse] at h
      cases h
    · have hrw : matchChars "SYNC_TIME:".toList (c :: rest) =
          if c = 'S' then matchChars "YNC_TIME:".toList rest else none := rfl
      rw [hrw, if_neg hc]

/-- **C10**: every console line whose trimmed text begins with an
optionally-signed decimal integer is classified `CMD_TYPE_TIME_SYNC` (the
timestamp validator accepts a single parsed field), even with no
`.`-separated microsecond part; and dispatching such a line — when the
simple format assigns exactly the seconds field — sets the clock to those
seconds with microseconds 0, sets the synchronized flag, and increments the
processed-command counter. -/
theorem numeric_time_sync_spec (line : List Char) (st : ProcState)
    (h : begins_with_int (trim_whitespace (line.take 511)) = true) :
    classify_command line = .CMD_TYPE_TIME_SYNC ∧
    ∀ sec : Int, sscanf_simple line = (1, sec, 0) →
      process_received_command st line =
        { time := { time_sync_established := true, clock_sec := sec, clock_usec := 0 }
          commands_processed := st.commands_processed + 1 } := by
  have hval : validate_timestamp_format (trim_whitespace (line.take 511)) = true :=
    validate_of_begins _ h
  have hcl : classify_command line = .CMD_TYPE_TIME_SYNC := by
    simp only [classify_command]
    rw [if_pos hval]
  refine ⟨hcl, fun sec hs => ?_⟩
  have hext : sscanf_extended line = (0, 0, 0) := by
    unfold sscanf_extended
    rw [matchChars_SYNC_none line h]
  have hparse : parse_timestamp_string line = ⟨sec, 0, true⟩ := by
    simp [parse_timestamp_string, hext, hs]
  have hne : ¬(line.length = 0) := by
    intro h0
    rw [List.length_eq_zero.mp h0] at h
    exact absurd h (by decide)
  unfold process_received_command
  rw [if_neg hne, hcl]
  simp [execute_classified_command, synchronize_system_time, hparse]

/-- Witness for C10: the line `"123abc"` — digits with no dot and trailing
junk — is classified time-sync and sets the clock to 123 s, microseconds 0,
with the flag raised and the counter bumped from 2 to 3. -/
theorem numeric_time_sync_spec_witness :
    classify_command "123abc".toList = .CMD_TYPE_TIME_SYNC ∧
    process_received_command ⟨⟨false, 55, 7⟩, 2⟩ "123abc".toList =
      ⟨⟨true, 123, 0⟩, 3⟩ := by
  have h := numeric_time_sync_spec "123abc".toList ⟨⟨false, 55, 7⟩, 2⟩ (by decide)
  exact ⟨h.1, h.2 123 (by decide)⟩

/-- Loop invariant of the value loop: starting untruncated with offset at
most 4054, the stored content always has exactly `offset` characters and the
offset never passes 4054 (each write starts below 4046 and adds at most 9). -/
theorem amplitude_loop_inv (value : Nat → List Char) (len : Nat)
    (hv : ∀ i, (value i).length ≤ 9) :
    ∀ (fuel i : Nat) (buf : List Char) (offset : Nat),
      buf.length = offset → offset ≤ 4054 →
      (amplitude_loop value len fuel i buf offset).1.length =
          (amplitude_loop value len fuel i buf offset).2 ∧
        (amplitude_loop value len fuel i buf offset).2 ≤ 4054 := by
  intro fuel
  induction fuel with
  | zero =>
    intro i buf offset hb ho
    exact ⟨hb, ho⟩
  | succ fuel ih =>
    intro i buf offset hb ho
    by_cases hcond : 2 * i + 1 < len ∧ offset < 4046
    · obtain ⟨hc1, hc2⟩ := hcond
      have hvi := hv i
      have hred : amplitude_loop value len (fuel + 1) i buf offset =
          amplitude_loop value len fuel (i + 1)
            (buf.take offset ++ (value i).take (4095 - offset))
            (offset + (value i).length) := by
        simp only [amplitude_loop, snprintf_at]
        rw [if_pos ⟨hc1, hc2⟩]
      rw [hred]
      apply ih
      · simp only [List.length_append, List.length_take]
        omega
      · omega
    · have hred : amplitude_loop value len (fuel + 1) i buf offset = (buf, offset) := by
        simp only [amplitude_loop]
        rw [if_neg hcond]
      rw [hred]
      exact ⟨hb, ho⟩

/-- Exact shape of the value loop while the payload ceiling stays out of
reach: it appends the rendering of every pair index from `i`, bounded by the
remaining fuel (the fixed maximum of 64) and by the sample's reported length
(pairs `j` with `2*j+1 < len`, i.e. `j < len / 2`). -/
theorem amplitude_loop_exact (value : Nat → List Char) (len : Nat)
    (hv : ∀ i, (value i).length ≤ 9) :
    ∀ (fuel i : Nat) (buf : List Char) (offset : Nat),
      buf.length = offset →
      offset + 9 * min fuel (len / 2 - i) ≤ 4054 →
      amplitude_loop value len fuel i buf offset =
        (buf ++ ((List.range' i (min fuel (len / 2 - i))).map value).flatten,
         offset + (((List.range' i (min fuel (len / 2 - i))).map value).flatten).length) := by
  intro fuel
  induction fuel with
  | zero =>
    intro i buf offset hb hoff
    simp [amplitude_loop]
  | succ fuel ih =>
    intro i buf offset hb hoff
    by_cases hil : i < len / 2
    · have hvi := hv i
      have hmin : min (fuel + 1) (len / 2 - i) = min fuel (len / 2 - (i + 1)) + 1 := by
        omega
      have hofflt : offset < 4046 := by omega
      have htakebuf : buf.take offset = buf := by
        rw [← hb]; exact List.take_length buf
      have htakev : (value i).take (4095 - offset) = value i :=
        List.take_of_length_le (by omega)
      have hred : amplitude_loop value len (fuel + 1) i buf offset =
          amplitude_loop value len fuel (i + 1) (buf ++ value i)
            (offset + (value i).length) := by
        simp only [amplitude_loop, snprintf_at]
        rw [if_pos ⟨by omega, hofflt⟩, htakebuf, htakev]
      rw [hred, ih (i + 1) (buf ++ value i) (offset + (value i).length)
            (by simp [hb]) (by omega)]
      rw [hmin, List.range'_succ]
      simp only [List.map_cons, List.flatten_cons, List.append_assoc, List.length_append,
        Nat.add_assoc, Prod.mk.injEq]
    · have hmin0 : min (fuel + 1) (len / 2 - i) = 0 := by omega
      have hnot : ¬(2 * i + 1 < len ∧ offset < 4046) := by
        rintro ⟨hc1, -⟩
        omega
      have hred : amplitude_loop value len (fuel + 1) i buf offset = (buf, offset) := by
        simp only [amplitude_loop]
        rw [if_neg hnot]
      rw [hred, hmin0]
      simp

/-- **C4**: the record built by the processing task never exceeds the
4096-byte transport buffer (4095 stored characters), and it ends with the
closing bracket and newline terminator even when the value list is cut off
by the payload ceiling; moreover, while the ceiling is out of reach (header
at most 3400 characters), the value loop emits the rendering of exactly
`min 64 (len / 2)` pairs — the minimum of the fixed maximum of 64 and the
pairs available in the sample's reported length — so it stops at whichever
of the three loop bounds bites first.  The hypotheses record what holds of
every reachable input: the header's bounded fields (MAC, bounded `%d`
fields, timestamp) total far below 4045 characters, and each `"%.4f "`
amplitude rendering has at most 9 characters (amplitudes lie below 182). -/
theorem formatter_bounded_spec (header : List Char) (value : Nat → List Char) (len : Nat)
    (hh : header.length ≤ 4045) (hv : ∀ i, (value i).length ≤ 9) :
    ((csi_record header value len).length ≤ 4095 ∧
      List.IsSuffix "]\n".toList (csi_record header value len)) ∧
    (header.length ≤ 3400 →
      csi_record header value len =
        header ++ ((List.range (min 64 (len / 2))).map value).flatten ++ "]\n".toList) := by
  have htake : header.take 4095 = header := List.take_of_length_le (by omega)
  have hinv := amplitude_loop_inv value len hv 64 0 (header.take 4095) header.length
      (by rw [htake]) (by omega)
  constructor
  · obtain ⟨hlen1, hle1⟩ := hinv
    have hbig : csi_record header value len =
        (amplitude_loop value len 64 0 (header.take 4095) header.length).1.take
            (amplitude_loop value len 64 0 (header.take 4095) header.length).2 ++
          "]\n".toList.take
            (4095 - (amplitude_loop value len 64 0 (header.take 4095) header.length).2) := by
      simp only [csi_record, snprintf_at]
    generalize hA : amplitude_loop value len 64 0 (header.take 4095) header.length = A
      at hlen1 hle1 hbig
    have htA : A.1.take A.2 = A.1 := by
      rw [← hlen1]; exact List.take_length _
    have htB : "]\n".toList.take (4095 - A.2) = "]\n".toList := by
      apply List.take_of_length_le
      have he : ("]\n".toList).length = 2 := rfl
      rw [he]; omega
    rw [hbig, htA, htB]
    constructor
    · have he : ("]\n".toList).length = 2 := rfl
      rw [List.length_append, hlen1, he]
      omega
    · exact ⟨A.1, rfl⟩
  · intro h3400
    have hminle : min 64 (len / 2 - 0) ≤ 64 := Nat.min_le_left _ _
    have hx := amplitude_loop_exact value len hv 64 0 (header.take 4095) header.length
        (by rw [htake]) (by omega)
    have hle2 : header.length +
        (((List.range' 0 (min 64 (len / 2 - 0))).map value).flatten).length ≤ 4054 := by
      have h2 := hinv.2
      rw [hx] at h2
      simpa using h2
    simp only [csi_record, snprintf_at]
    rw [hx]
    simp only [htake]
    have h1 : (header ++ (((List.range' 0 (min 64 (len / 2 - 0))).map value).flatten)).take
        (header.length + (((List.range' 0 (min 64 (len / 2 - 0))).map value).flatten).length) =
        header ++ (((List.range' 0 (min 64 (len / 2 - 0))).map value).flatten) := by
      rw [← List.length_append]
      exact List.take_length _
    have h2 : "]\n".toList.take
        (4095 - (header.length +
          (((List.range' 0 (min 64 (len / 2 - 0))).map value).flatten).length)) =
        "]\n".toList := by
      apply List.take_of_length_le
      have he : ("]\n".toList).length = 2 := rfl
      rw [he]; omega
    rw [h1, h2, List.append_assoc, List.range_eq_range']
    simp

/-- Witness for C4: a concrete header and value rendering for a 128-byte
sample; the record stays within the buffer, ends with the terminator, and
carries exactly `min 64 64 = 64` rendered values. -/
theorem formatter_bounded_spec_witness :
    ((csi_record demoHeader demoValue 128).length ≤ 4095 ∧
      List.IsSuffix "]\n".toList (csi_record demoHeader demoValue 128)) ∧
    (demoHeader.length ≤ 3400 →
      csi_record demoHeader demoValue 128 =
        demoHeader ++ ((List.range (min 64 (128 / 2))).map demoValue).flatten ++ "]\n".toList) :=
  formatter_bounded_spec demoHeader demoValue 128 (by decide)
    (fun _ => (by decide : ("5.0000 ".toList).length ≤ 9))

end CsiAp
